import Mathlib

/-!
Verification of the `moneybags` transaction-processing program (a shallow
embedding of `src/lib.rs`).

Modelling conventions:
* `rust_decimal::Decimal` amounts are modelled as `Int`, read as fixed-point
  values in units of 10^-4 (the scale used throughout the repository's test
  data).  Only `+`, `-` and `≥` are applied to amounts in the source, and on
  those operations the embedding is exact.
* `u64` client and transaction ids are modelled as `Nat`.
* `BTreeMap<K, V>` is modelled as a strictly key-sorted association list
  (`List (K × V)`); `insert` replaces the value at an existing key, and
  iteration over `values()` is iteration over the sorted list.
* `anyhow::Result<T>` is modelled as `Except String T`; `ensure!` and the
  `.context(...)?` lookups become `Except.error` with the source's message.
* CSV parsing is out of scope: a run's input is the parsed `List Record`
  (`Records::from_reader` minus serde), and `Moneybags::run`'s output is the
  `Vec<Client>` that it serializes, row for row.
-/

namespace Moneybags

/-- `enum RecordType` of `src/lib.rs` (lines 47-74). -/
inductive RecordType where
  | deposit
  | withdrawal
  | dispute
  | resolve
  | chargeback
deriving DecidableEq, Repr

/-- `struct Record` of `src/lib.rs` (lines 88-104): one parsed CSV row.
`amount` is `Decimal` in the source, modelled as fixed-point `Int`;
rows without an amount parse to `0` (`parse_decimal`, lines 107-119). -/
structure Record where
  record_type : RecordType
  client : Nat
  tx : Nat
  amount : Int
deriving DecidableEq, Repr

/-- `enum Id` of `src/lib.rs` (lines 128-134): the key type of the record map.
`Deposit`/`Withdrawal` rows are keyed by their real transaction id, the other
rows by a synthetic counter.  The derived Rust `Ord` orders every `Tx` key
before every `Fake` key. -/
inductive Id where
  | Tx (tx : Nat)
  | Fake (n : Nat)
deriving DecidableEq, Repr

/-- The strict order on `Id` derived by `#[derive(Ord)]` in the source:
variant order first (`Tx < Fake`), then the inner value. -/
def Id.lt : Id → Id → Bool
  | .Tx a, .Tx b => a < b
  | .Tx _, .Fake _ => true
  | .Fake _, .Tx _ => false
  | .Fake a, .Fake b => a < b

/-- `BTreeMap<Id, Record>::insert`: keeps the list strictly sorted by `Id.lt`
and replaces the value when the key is already present. -/
def insertRecord (k : Id) (v : Record) : List (Id × Record) → List (Id × Record)
  | [] => [(k, v)]
  | (k2, v2) :: rest =>
    if Id.lt k k2 then (k, v) :: (k2, v2) :: rest
    else if Id.lt k2 k then (k2, v2) :: insertRecord k v rest
    else (k, v) :: rest

/-- `BTreeMap<Id, Record>::get`. -/
def lookupRecord (k : Id) : List (Id × Record) → Option Record
  | [] => none
  | (k2, v2) :: rest => if k = k2 then some v2 else lookupRecord k rest

/-- The loop body of `Records::from_reader` (`src/lib.rs` lines 143-156):
each parsed row is inserted into the map under `Id::Tx(tx)` for
`Deposit`/`Withdrawal`, or under a fresh `Id::Fake` counter value for
`Dispute`/`Resolve`/`Chargeback`. -/
def recordsLoop (acc : List (Id × Record)) (fake_id : Nat) :
    List Record → List (Id × Record)
  | [] => acc
  | r :: rest =>
    match r.record_type with
    | .deposit | .withdrawal =>
        recordsLoop (insertRecord (Id.Tx r.tx) r acc) fake_id rest
    | .dispute | .resolve | .chargeback =>
        recordsLoop (insertRecord (Id.Fake (fake_id + 1)) r acc) (fake_id + 1) rest

/-- `Records::from_reader` (`src/lib.rs` lines 138-159), applied to the
already-parsed row sequence: builds the `BTreeMap<Id, Record>`. -/
def recordsFromList (input : List Record) : List (Id × Record) :=
  recordsLoop [] 0 input

/-- `struct Client` of `src/lib.rs` (lines 174-181): an account snapshot. -/
structure Client where
  id : Nat
  available : Int
  held : Int
  total : Int
  locked : Bool
deriving DecidableEq, Repr

/-- `Client::new` (`src/lib.rs` lines 184-189): all balances zero, unlocked. -/
def Client.new (id : Nat) : Client :=
  { id := id, available := 0, held := 0, total := 0, locked := false }

/-- `BTreeMap<u64, Client>::insert`, on a strictly key-sorted list. -/
def insertClient (k : Nat) (v : Client) : List (Nat × Client) → List (Nat × Client)
  | [] => [(k, v)]
  | (k2, v2) :: rest =>
    if k < k2 then (k, v) :: (k2, v2) :: rest
    else if k2 < k then (k2, v2) :: insertClient k v rest
    else (k, v) :: rest

/-- `BTreeMap<u64, Client>::get`. -/
def lookupClient (k : Nat) : List (Nat × Client) → Option Client
  | [] => none
  | (k2, v2) :: rest => if k = k2 then some v2 else lookupClient k rest

/-- `clients.entry(record.client).or_insert_with(|| Client::new(record.client))`
followed by the copy (`src/lib.rs` lines 196-198): the account currently stored
for the client, or a fresh one. -/
def currentClient (cs : List (Nat × Client)) (k : Nat) : Client :=
  match lookupClient k cs with
  | some c => c
  | none => Client.new k

/-- One iteration of the `process_records` loop (`src/lib.rs` lines 194-247):
copy the client, apply the record's effect to the copy (or fail), then commit
the copy back into the map.  The `Dispute`/`Resolve`/`Chargeback` branches look
the referenced transaction up in the complete record map `rs` and use the
referenced record's amount; no check compares the referenced record's client
with the event's client, and `locked` is never consulted. -/
def applyRecord (rs : List (Id × Record)) (cs : List (Nat × Client))
    (r : Record) : Except String (List (Nat × Client)) :=
  let c := currentClient cs r.client
  match r.record_type with
  | .deposit =>
      .ok (insertClient c.id
        { c with available := c.available + r.amount, total := c.total + r.amount } cs)
  | .withdrawal =>
      if c.available ≥ r.amount then
        .ok (insertClient c.id
          { c with available := c.available - r.amount, total := c.total - r.amount } cs)
      else
        .error "Withdrawal failed. Available funds insufficient."
  | .dispute =>
      match lookupRecord (Id.Tx r.tx) rs with
      | none => .error ("Disputed record tx " ++ toString r.tx ++ " could not be found")
      | some d =>
          .ok (insertClient c.id
            { c with available := c.available - d.amount, held := c.held + d.amount } cs)
  | .resolve =>
      match lookupRecord (Id.Tx r.tx) rs with
      | none => .error ("Resolved record tx " ++ toString r.tx ++ " could not be found")
      | some d =>
          .ok (insertClient c.id
            { c with available := c.available + d.amount, held := c.held - d.amount } cs)
  | .chargeback =>
      match lookupRecord (Id.Tx r.tx) rs with
      | none => .error ("Chargeback record tx " ++ toString r.tx ++ " could not be found")
      | some d =>
          .ok (insertClient c.id
            { c with available := c.available - d.amount, held := c.held - d.amount,
                     locked := true } cs)

/-- The `for record in records.0.values()` loop of `process_records`
(`src/lib.rs` lines 194-247): records are visited in `BTreeMap` key order, and
the first failing record aborts the whole function via `ensure!`/`?`. -/
def processLoop (rs : List (Id × Record)) (cs : List (Nat × Client)) :
    List (Id × Record) → Except String (List (Nat × Client))
  | [] => .ok cs
  | (_, r) :: rest =>
    match applyRecord rs cs r with
    | .ok cs2 => processLoop rs cs2 rest
    | .error e => .error e

/-- `process_records` (`src/lib.rs` lines 192-250): fold the record map's
values, in key order, over an empty client map; on success return the clients
in ascending key order (`BTreeMap::into_iter`). -/
def process_records (rs : List (Id × Record)) : Except String (List Client) :=
  match processLoop rs [] rs with
  | .ok cs => .ok (cs.map Prod.snd)
  | .error e => .error e

/-- `Moneybags::run` (`src/lib.rs` lines 32-41), from the parsed row sequence
to the rows it serializes: `process_records(Records::from_reader(input))`.  Any
error from `process_records` propagates and aborts the run. -/
def moneybagsRun (input : List Record) : Except String (List Client) :=
  process_records (recordsFromList input)

/-! ### Order facts about `Id` and the two association-list maps -/

theorem Id.ne_of_lt {a b : Id} (h : Id.lt a b = true) : a ≠ b := by
  cases a <;> cases b <;> simp [Id.lt] at h ⊢ <;> omega

theorem Id.eq_of_not_lt {a b : Id} (h1 : Id.lt a b = false)
    (h2 : Id.lt b a = false) : a = b := by
  cases a <;> cases b <;> simp [Id.lt] at h1 h2 ⊢ <;> omega

theorem lookupRecord_insertRecord_self (k : Id) (v : Record)
    (m : List (Id × Record)) :
    lookupRecord k (insertRecord k v m) = some v := by
  induction m with
  | nil => simp [insertRecord, lookupRecord]
  | cons p rest ih =>
    obtain ⟨k2, v2⟩ := p
    by_cases h1 : Id.lt k k2 = true
    · simp [insertRecord, h1, lookupRecord]
    · by_cases h2 : Id.lt k2 k = true
      · have hne : k ≠ k2 := fun he => Id.ne_of_lt h2 he.symm
        simp [insertRecord, h1, h2, lookupRecord, hne, ih]
      · simp [insertRecord, h1, h2, lookupRecord]

theorem lookupRecord_insertRecord_ne {k k2 : Id} (hne : k ≠ k2) (v : Record)
    (m : List (Id × Record)) :
    lookupRecord k (insertRecord k2 v m) = lookupRecord k m := by
  induction m with
  | nil => simp [insertRecord, lookupRecord, hne]
  | cons p rest ih =>
    obtain ⟨k3, v3⟩ := p
    by_cases h1 : Id.lt k2 k3 = true
    · simp [insertRecord, h1, lookupRecord, hne]
    · by_cases h2 : Id.lt k3 k2 = true
      · simp [insertRecord, h1, h2, lookupRecord, ih]
      · have h3 : k3 = k2 :=
          Id.eq_of_not_lt (Bool.eq_false_iff.mpr h2) (Bool.eq_false_iff.mpr h1)
        subst h3
        simp [insertRecord, h1, h2, lookupRecord, hne]

/-! ### C10: duplicate transaction ids are last-write-wins -/

/-- Formalizes the claim's phrase "the last Deposit/Withdrawal record with
that tx_id": fold over the input keeping the most recent match. -/
def lastTxStep (t : Nat) (acc : Option Record) (r : Record) : Option Record :=
  match r.record_type with
  | .deposit | .withdrawal => if r.tx = t then some r else acc
  | .dispute | .resolve | .chargeback => acc

/-- The last Deposit/Withdrawal record in `input` whose transaction id is `t`,
written from the claim's words (not from the source) for comparison with
`recordsFromList`. -/
def lastTxRecord (t : Nat) (input : List Record) : Option Record :=
  input.foldl (lastTxStep t) none

theorem recordsLoop_lookup_tx (t : Nat) :
    ∀ (l : List Record) (acc : List (Id × Record)) (fake_id : Nat),
    lookupRecord (Id.Tx t) (recordsLoop acc fake_id l) =
      l.foldl (lastTxStep t) (lookupRecord (Id.Tx t) acc) := by
  intro l
  induction l with
  | nil => intro acc fake_id; simp [recordsLoop]
  | cons r rest ih =>
    intro acc fake_id
    cases hrt : r.record_type
    case deposit | withdrawal =>
      simp only [recordsLoop, hrt, List.foldl_cons]
      rw [ih]
      congr 1
      by_cases htx : r.tx = t
      · subst htx
        simp [lastTxStep, hrt, lookupRecord_insertRecord_self]
      · have hne : Id.Tx t ≠ Id.Tx r.tx := by
          intro he; exact htx (by injection he with h; exact h.symm)
        rw [lookupRecord_insertRecord_ne hne]
        simp [lastTxStep, hrt, htx]
    case dispute | resolve | chargeback =>
      simp only [recordsLoop, hrt, List.foldl_cons]
      rw [ih]
      congr 1
      rw [lookupRecord_insertRecord_ne (by simp)]
      simp [lastTxStep, hrt]

/-- C10: when several Deposit/Withdrawal records share a tx_id, the record map
retains exactly the last of them, so every later Dispute/Resolve/Chargeback
reference to that tx_id resolves to the last record's client and amount, and
the earlier duplicates are absent from the map that `process_records`
iterates. -/
theorem c10_duplicate_tx_last_wins (input : List Record) (t : Nat) :
    lookupRecord (Id.Tx t) (recordsFromList input) = lastTxRecord t input := by
  unfold recordsFromList lastTxRecord
  rw [recordsLoop_lookup_tx]
  rfl

/-! ### Lemmas about the client map -/

theorem lookupClient_insertClient_self (k : Nat) (v : Client)
    (m : List (Nat × Client)) :
    lookupClient k (insertClient k v m) = some v := by
  induction m with
  | nil => simp [insertClient, lookupClient]
  | cons p rest ih =>
    obtain ⟨k2, v2⟩ := p
    by_cases h1 : k < k2
    · simp [insertClient, h1, lookupClient]
    · by_cases h2 : k2 < k
      · have hne : k ≠ k2 := by omega
        simp [insertClient, h1, h2, lookupClient, hne, ih]
      · simp [insertClient, h1, h2, lookupClient]

theorem lookupClient_insertClient_ne {k k2 : Nat} (hne : k ≠ k2) (v : Client)
    (m : List (Nat × Client)) :
    lookupClient k (insertClient k2 v m) = lookupClient k m := by
  induction m with
  | nil => simp [insertClient, lookupClient, hne]
  | cons p rest ih =>
    obtain ⟨k3, v3⟩ := p
    by_cases h1 : k2 < k3
    · simp [insertClient, h1, lookupClient, hne]
    · by_cases h2 : k3 < k2
      · simp [insertClient, h1, h2, lookupClient, ih]
      · have h3 : k3 = k2 := by omega
        subst h3
        simp [insertClient, h1, h2, lookupClient, hne]

theorem mem_insertClient_keys {x k : Nat} (v : Client) (m : List (Nat × Client)) :
    (∃ p ∈ insertClient k v m, p.1 = x) ↔ x = k ∨ ∃ p ∈ m, p.1 = x := by
  induction m with
  | nil => simp [insertClient]; tauto
  | cons p rest ih =>
    obtain ⟨k2, v2⟩ := p
    by_cases h1 : k < k2
    · simp [insertClient, h1]; tauto
    · by_cases h2 : k2 < k
      · rw [insertClient, if_neg h1, if_pos h2]
        constructor
        · rintro ⟨q, hq, hx⟩
          rcases List.mem_cons.mp hq with hq | hq
          · subst hq; right; exact ⟨(k2, v2), List.mem_cons_self _ _, hx⟩
          · rcases ih.mp ⟨q, hq, hx⟩ with h | ⟨q2, hq2, hx2⟩
            · exact Or.inl h
            · exact Or.inr ⟨q2, List.mem_cons_of_mem _ hq2, hx2⟩
        · rintro (h | ⟨q, hq, hx⟩)
          · rcases ih.mpr (Or.inl h) with ⟨q, hq, hx⟩
            exact ⟨q, List.mem_cons_of_mem _ hq, hx⟩
          · rcases List.mem_cons.mp hq with hq | hq
            · subst hq; exact ⟨(k2, v2), List.mem_cons_self _ _, hx⟩
            · rcases ih.mpr (Or.inr ⟨q, hq, hx⟩) with ⟨q2, hq2, hx2⟩
              exact ⟨q2, List.mem_cons_of_mem _ hq2, hx2⟩
      · have h3 : k2 = k := by omega
        subst h3
        simp [insertClient, h1, h2]; tauto

theorem pairwise_insertClient {k : Nat} {v : Client} {m : List (Nat × Client)}
    (hs : List.Pairwise (fun p q => p.1 < q.1) m) :
    List.Pairwise (fun p q => p.1 < q.1) (insertClient k v m) := by
  induction m with
  | nil => simp [insertClient]
  | cons p rest ih =>
    obtain ⟨k2, v2⟩ := p
    rw [List.pairwise_cons] at hs
    obtain ⟨hhead, htail⟩ := hs
    by_cases h1 : k < k2
    · rw [insertClient, if_pos h1]
      refine List.Pairwise.cons ?_ (List.Pairwise.cons hhead htail)
      intro q hq
      rcases List.mem_cons.mp hq with hq | hq
      · subst hq; exact h1
      · exact lt_trans h1 (hhead q hq)
    · by_cases h2 : k2 < k
      · rw [insertClient, if_neg h1, if_pos h2]
        refine List.Pairwise.cons ?_ (ih htail)
        intro q hq
        have := (mem_insertClient_keys (x := q.1) (k := k) v rest).mp ⟨q, hq, rfl⟩
        rcases this with h | ⟨q2, hq2, hx⟩
        · omega
        · exact hx ▸ hhead q2 hq2
      · have h3 : k2 = k := by omega
        subst h3
        rw [insertClient, if_neg h1, if_neg h2]
        exact List.Pairwise.cons hhead htail

theorem ids_insertClient {k : Nat} {v : Client} {m : List (Nat × Client)}
    (hm : ∀ p ∈ m, (p.2 : Client).id = p.1) (hv : v.id = k) :
    ∀ p ∈ insertClient k v m, (p.2 : Client).id = p.1 := by
  induction m with
  | nil => simp [insertClient, hv]
  | cons p rest ih =>
    obtain ⟨k2, v2⟩ := p
    have hhead := hm (k2, v2) (List.mem_cons_self _ _)
    have htail : ∀ p ∈ rest, (p.2 : Client).id = p.1 := fun q hq =>
      hm q (List.mem_cons_of_mem _ hq)
    by_cases h1 : k < k2
    · intro q hq
      rw [insertClient, if_pos h1] at hq
      rcases List.mem_cons.mp hq with hq | hq
      · subst hq; exact hv
      · exact hm q hq
    · by_cases h2 : k2 < k
      · intro q hq
        rw [insertClient, if_neg h1, if_pos h2] at hq
        rcases List.mem_cons.mp hq with hq | hq
        · subst hq; exact hhead
        · exact ih htail q hq
      · intro q hq
        rw [insertClient, if_neg h1, if_neg h2] at hq
        rcases List.mem_cons.mp hq with hq | hq
        · subst hq; simpa using hv
        · exact htail q hq

theorem lookupClient_mem {k : Nat} {v : Client} {m : List (Nat × Client)}
    (h : lookupClient k m = some v) : (k, v) ∈ m := by
  induction m with
  | nil => simp [lookupClient] at h
  | cons p rest ih =>
    obtain ⟨k2, v2⟩ := p
    by_cases he : k = k2
    · subst he
      rw [lookupClient, if_pos rfl] at h
      injection h with h
      subst h
      exact List.mem_cons_self _ _
    · rw [lookupClient, if_neg he] at h
      exact List.mem_cons_of_mem _ (ih h)

theorem currentClient_id {cs : List (Nat × Client)} (k : Nat)
    (hinv : ∀ p ∈ cs, (p.2 : Client).id = p.1) :
    (currentClient cs k).id = k := by
  unfold currentClient
  cases h : lookupClient k cs with
  | none => rfl
  | some c => exact hinv (k, c) (lookupClient_mem h)

/-! ### Shape of a successful step and the loop invariant -/

/-- Every successful branch of the `process_records` loop body commits exactly
one updated copy of the current client back into the map, at that client's own
id, and never changes the `id` field of the copy. -/
theorem applyRecord_ok_shape {rs : List (Id × Record)}
    {cs cs2 : List (Nat × Client)} {r : Record}
    (h : applyRecord rs cs r = .ok cs2) :
    ∃ v : Client, v.id = (currentClient cs r.client).id ∧
      cs2 = insertClient (currentClient cs r.client).id v cs := by
  cases hrt : r.record_type
  case deposit =>
    simp only [applyRecord, hrt] at h
    injection h with h
    refine ⟨_, ?_, h.symm⟩
    rfl
  case withdrawal =>
    simp only [applyRecord, hrt] at h
    split at h
    · injection h with h
      refine ⟨_, ?_, h.symm⟩
      rfl
    · cases h
  case dispute =>
    simp only [applyRecord, hrt] at h
    cases hl : lookupRecord (Id.Tx r.tx) rs <;> simp only [hl] at h
    · cases h
    · injection h with h
      refine ⟨_, ?_, h.symm⟩
      rfl
  case resolve =>
    simp only [applyRecord, hrt] at h
    cases hl : lookupRecord (Id.Tx r.tx) rs <;> simp only [hl] at h
    · cases h
    · injection h with h
      refine ⟨_, ?_, h.symm⟩
      rfl
  case chargeback =>
    simp only [applyRecord, hrt] at h
    cases hl : lookupRecord (Id.Tx r.tx) rs <;> simp only [hl] at h
    · cases h
    · injection h with h
      refine ⟨_, ?_, h.symm⟩
      rfl

/-- Invariant of the `process_records` loop: on a successful run the client
map stays strictly sorted by key, every stored client's `id` equals its key,
and the final key set is the starting key set plus the clients of the
processed records. -/
theorem processLoop_ok_spec :
    ∀ (l rs : List (Id × Record)) (cs cs2 : List (Nat × Client)),
    processLoop rs cs l = .ok cs2 →
    List.Pairwise (fun p q => p.1 < q.1) cs →
    (∀ p ∈ cs, (p.2 : Client).id = p.1) →
    List.Pairwise (fun p q => p.1 < q.1) cs2 ∧
      (∀ p ∈ cs2, (p.2 : Client).id = p.1) ∧
      (∀ x, (∃ p ∈ cs2, p.1 = x) ↔
        (∃ p ∈ cs, p.1 = x) ∨ ∃ q ∈ l, (q.2 : Record).client = x) := by
  intro l
  induction l with
  | nil =>
    intro rs cs cs2 h hs hi
    rw [processLoop] at h
    injection h with h
    subst h
    exact ⟨hs, hi, fun x => by simp⟩
  | cons p rest ih =>
    intro rs cs cs2 h hs hi
    obtain ⟨i, r⟩ := p
    rw [processLoop] at h
    cases ha : applyRecord rs cs r <;> rw [ha] at h
    case error e => cases h
    case ok cs1 =>
      obtain ⟨v, hv, hshape⟩ := applyRecord_ok_shape ha
      have hcid : (currentClient cs r.client).id = r.client :=
        currentClient_id r.client hi
      subst hshape
      have hs1 := pairwise_insertClient (k := (currentClient cs r.client).id)
        (v := v) hs
      have hi1 := ids_insertClient hi hv
      obtain ⟨hp2, hi2, hdom⟩ := ih rs _ cs2 h hs1 hi1
      refine ⟨hp2, hi2, fun x => ?_⟩
      rw [hdom x, mem_insertClient_keys, hcid]
      have hx1 : (∃ q ∈ (i, r) :: rest, (q.2 : Record).client = x) ↔
          (x = r.client ∨ ∃ q ∈ rest, (q.2 : Record).client = x) := by
        constructor
        · rintro ⟨q, hq, hqx⟩
          rcases List.mem_cons.mp hq with hq | hq
          · subst hq; exact Or.inl hqx.symm
          · exact Or.inr ⟨q, hq, hqx⟩
        · rintro (h | ⟨q, hq, hqx⟩)
          · exact ⟨(i, r), List.mem_cons_self _ _, h.symm⟩
          · exact ⟨q, List.mem_cons_of_mem _ hq, hqx⟩
      rw [hx1]
      constructor
      · rintro ((h | h) | h)
        · exact Or.inr (Or.inl h)
        · exact Or.inl h
        · exact Or.inr (Or.inr h)
      · rintro (h | (h | h))
        · exact Or.inl (Or.inr h)
        · exact Or.inl (Or.inl h)
        · exact Or.inr h

/-! ### The claims -/

/-- C1: the claim is broken by the Chargeback branch.  After
`deposit(client 1, tx 1, amount 5)` followed by `chargeback(client 1, tx 1)`
the run succeeds and reports available 0, held -5, total 5 — and
`total = available + held` fails, since 5 ≠ 0 + (-5).  The Chargeback branch
subtracts the referenced amount from `available` and `held` while its own doc
comment prescribes `held` and `total`. -/
theorem c1_invariant_broken_by_chargeback :
    moneybagsRun [⟨.deposit, 1, 1, 5⟩, ⟨.chargeback, 1, 1, 0⟩] =
      .ok [{ id := 1, available := 0, held := -5, total := 5, locked := true }] ∧
    (5 : Int) ≠ 0 + (-5) :=
  ⟨rfl, by decide⟩

/-- C2: on the repository's own `process_chargeback` test scenario (amounts in
units of 10^-4: 200.9999 = 2009999 and so on) the Chargeback leaves `total`
unchanged at 100.4998 and drives `available` down by the referenced amount to
-100.5004 — the opposite of the claim (and of the source's doc comment), which
require `held`/`total` to decrease and `available` to stay. -/
theorem c2_chargeback_subtracts_available_not_total :
    moneybagsRun [⟨.deposit, 1, 1, 2009999⟩, ⟨.withdrawal, 1, 2, 1005001⟩,
        ⟨.dispute, 1, 2, 0⟩, ⟨.chargeback, 1, 2, 0⟩] =
      .ok [{ id := 1, available := -1005004, held := 0, total := 1004998,
             locked := true }] ∧
    moneybagsRun [⟨.deposit, 1, 1, 2009999⟩, ⟨.withdrawal, 1, 2, 1005001⟩,
        ⟨.dispute, 1, 2, 0⟩] =
      .ok [{ id := 1, available := -3, held := 1005001, total := 1004998,
             locked := false }] ∧
    (-1005004 : Int) = -3 - 1005001 ∧ (1004998 : Int) ≠ 1004998 - 1005001 :=
  ⟨rfl, rfl, by decide, by decide⟩

/-- C3 counterexample: in `[dispute(client 1, tx 1), deposit(client 1, tx 1,
amount 5)]` the dispute references a transaction that appears only later in
the stream; the claim demands an `UnknownTransaction` failure, but the run
succeeds and the dispute is applied (held = 5), because every
Deposit/Withdrawal is processed before every Dispute (Id::Tx sorts before
Id::Fake in the record map) and the lookup searches the whole map. -/
theorem c3_counterexample :
    moneybagsRun [⟨.dispute, 1, 1, 0⟩, ⟨.deposit, 1, 1, 5⟩] =
      .ok [{ id := 1, available := 0, held := 5, total := 5, locked := false }] :=
  rfl

/-- C3 (amended): records are processed in record-map key order — all
Deposits/Withdrawals ordered by tx id before all Dispute/Resolve/Chargeback
records — and a back-reference is resolved against the complete record map,
so a Dispute/Resolve/Chargeback fails if and only if no Deposit/Withdrawal
with the referenced tx id exists anywhere in the input, regardless of its
position in the stream. -/
theorem c3_lookup_ignores_stream_position
    (rs : List (Id × Record)) (cs : List (Nat × Client)) (r : Record)
    (h : r.record_type = .dispute ∨ r.record_type = .resolve ∨
      r.record_type = .chargeback) :
    (∃ cs2, applyRecord rs cs r = .ok cs2) ↔
      ∃ d, lookupRecord (Id.Tx r.tx) rs = some d := by
  rcases h with h | h | h <;>
    · simp only [applyRecord, h]
      cases hl : lookupRecord (Id.Tx r.tx) rs <;> simp [hl]

/-- Witness for C3 (amended): a dispute whose referenced deposit is present in
the record map succeeds. -/
theorem c3_lookup_ignores_stream_position_witness :
    (∃ cs2, applyRecord (recordsFromList [⟨.deposit, 1, 1, 5⟩]) []
        ⟨.dispute, 1, 1, 0⟩ = .ok cs2) ↔
      ∃ d, lookupRecord (Id.Tx 1) (recordsFromList [⟨.deposit, 1, 1, 5⟩]) = some d :=
  c3_lookup_ignores_stream_position _ [] ⟨.dispute, 1, 1, 0⟩ (Or.inl rfl)

/-- C4 counterexample: with input `[deposit(c1, tx 1, 5), withdrawal(c1, tx 2,
10), deposit(c1, tx 3, 7)]` the failing withdrawal does not merely skip its
own effect — the whole run aborts with an error, the third record is never
applied and no summary is produced, contradicting the claim that processing
continues and the run exits successfully. -/
theorem c4_counterexample :
    moneybagsRun [⟨.deposit, 1, 1, 5⟩, ⟨.withdrawal, 1, 2, 10⟩,
        ⟨.deposit, 1, 3, 7⟩] =
      .error "Withdrawal failed. Available funds insufficient." :=
  rfl

/-- C4 (amended): a per-event failure is fatal, not recoverable: the first
failing record aborts the entire `process_records` loop — its error
propagates, the remaining records are not processed, the accumulated client
map is discarded and no summary is produced. -/
theorem c4_failure_aborts_run (rs : List (Id × Record))
    (cs : List (Nat × Client)) (i : Id) (r : Record)
    (rest : List (Id × Record)) (e : String)
    (h : applyRecord rs cs r = .error e) :
    processLoop rs cs ((i, r) :: rest) = .error e := by
  rw [processLoop, h]

/-- Witness for C4 (amended): an insufficient-funds withdrawal at the head of
the loop aborts it. -/
theorem c4_failure_aborts_run_witness :
    processLoop [] [] [(Id.Tx 1, ⟨.withdrawal, 1, 1, 3⟩)] =
      .error "Withdrawal failed. Available funds insufficient." :=
  c4_failure_aborts_run [] [] (Id.Tx 1) ⟨.withdrawal, 1, 1, 3⟩ [] _ rfl

/-- C5 counterexample: `[deposit(c1, tx 1, 5), chargeback(c1, tx 1),
dispute(c1, tx 1)]`.  After the chargeback the account is locked (available 0,
held -5, total 5), yet the subsequent dispute is applied without any
`AccountLocked` failure and moves the balances to available -5, held 0 —
contradicting both the rejection and the balances-frozen parts of the claim. -/
theorem c5_counterexample :
    moneybagsRun [⟨.deposit, 1, 1, 5⟩, ⟨.chargeback, 1, 1, 0⟩] =
      .ok [{ id := 1, available := 0, held := -5, total := 5, locked := true }] ∧
    moneybagsRun [⟨.deposit, 1, 1, 5⟩, ⟨.chargeback, 1, 1, 0⟩,
        ⟨.dispute, 1, 1, 0⟩] =
      .ok [{ id := 1, available := -5, held := 0, total := 5, locked := true }] :=
  ⟨rfl, rfl⟩

/-- C5 (amended): the `locked` flag is set by Chargeback but never consulted:
an event for a locked client is processed exactly as for an unlocked one —
here a deposit to a locked account succeeds and changes its balances. -/
theorem c5_locked_account_still_updated (rs : List (Id × Record)) (c : Client)
    (r : Record) (h1 : r.record_type = .deposit) (h2 : r.client = c.id)
    (h3 : c.locked = true) :
    applyRecord rs [(c.id, c)] r =
      .ok [(c.id, { c with
        available := c.available + r.amount,
        total := c.total + r.amount })] := by
  simp [applyRecord, h1, h2, currentClient, lookupClient, insertClient]

/-- Witness for C5 (amended): a deposit of 4 to a locked account with
available 2, held 3, total 5 lands and yields available 6, total 9. -/
theorem c5_locked_account_still_updated_witness :
    applyRecord [] [(1, ⟨1, 2, 3, 5, true⟩)] ⟨.deposit, 1, 1, 4⟩ =
      .ok [(1, ⟨1, 6, 3, 9, true⟩)] := by
  have h := c5_locked_account_still_updated [] ⟨1, 2, 3, 5, true⟩
    ⟨.deposit, 1, 1, 4⟩ rfl rfl rfl
  exact h

/-- C6 counterexample: `[deposit(client 1, tx 1, 5), dispute(client 2,
tx 1)]`.  The referenced transaction belongs to client 1, yet the dispute
raised by client 2 does not fail with `ClientMismatch`: it is applied to
client 2's account, which ends at available -5, held 5. -/
theorem c6_counterexample :
    moneybagsRun [⟨.deposit, 1, 1, 5⟩, ⟨.dispute, 2, 1, 0⟩] =
      .ok [{ id := 1, available := 5, held := 0, total := 5, locked := false },
           { id := 2, available := -5, held := 5, total := 0, locked := false }] :=
  rfl

/-- C6 (amended): no client comparison is performed: whenever the referenced
transaction exists, the dispute effect (available -= refAmt, held += refAmt)
is applied to the event's client using the referenced record's amount, even
when the referenced record's client differs from the event's client. -/
theorem c6_no_client_check (rs : List (Id × Record)) (cs : List (Nat × Client))
    (r d : Record) (h1 : r.record_type = .dispute)
    (h2 : lookupRecord (Id.Tx r.tx) rs = some d) (h3 : d.client ≠ r.client) :
    applyRecord rs cs r =
      .ok (insertClient (currentClient cs r.client).id
        { currentClient cs r.client with
            available := (currentClient cs r.client).available - d.amount,
            held := (currentClient cs r.client).held + d.amount } cs) := by
  simp only [applyRecord, h1, h2]

/-- Witness for C6 (amended): client 2 disputes client 1's deposit of 5 and
gets the hold applied to its own fresh account. -/
theorem c6_no_client_check_witness :
    applyRecord (recordsFromList [⟨.deposit, 1, 7, 5⟩]) [] ⟨.dispute, 2, 7, 0⟩ =
      .ok [(2, { id := 2, available := -5, held := 5, total := 0,
                 locked := false })] := by
  have h := c6_no_client_check (recordsFromList [⟨.deposit, 1, 7, 5⟩]) []
    ⟨.dispute, 2, 7, 0⟩ ⟨.deposit, 1, 7, 5⟩ rfl rfl (by decide)
  exact h

/-- C7: the Withdrawal branch, for an unlocked account: with sufficient
available funds it decreases `available` and `total` by the amount and leaves
`held` (and `locked`) unchanged; with `available < amount` it fails with the
insufficient-funds error (and, the error being fatal, no state is returned). -/
theorem c7_withdrawal_semantics (rs : List (Id × Record))
    (cs : List (Nat × Client)) (r : Record)
    (h1 : r.record_type = .withdrawal)
    (h2 : (currentClient cs r.client).locked = false) :
    ((currentClient cs r.client).available ≥ r.amount →
      applyRecord rs cs r =
        .ok (insertClient (currentClient cs r.client).id
          { currentClient cs r.client with
              available := (currentClient cs r.client).available - r.amount,
              total := (currentClient cs r.client).total - r.amount } cs)) ∧
    ((currentClient cs r.client).available < r.amount →
      applyRecord rs cs r = .error "Withdrawal failed. Available funds insufficient.") := by
  constructor
  · intro hge
    simp only [applyRecord, h1]
    rw [if_pos hge]
  · intro hlt
    simp only [applyRecord, h1]
    rw [if_neg (not_le.mpr hlt)]

/-- Witness for C7: from available 5, a withdrawal of 3 succeeds leaving
available 2 and total 2 with held untouched; a withdrawal of 7 fails. -/
theorem c7_withdrawal_semantics_witness :
    applyRecord [] [(1, { id := 1, available := 5, held := 0, total := 5, locked := false })]
        ⟨.withdrawal, 1, 9, 3⟩ =
      .ok [(1, { id := 1, available := 2, held := 0, total := 2, locked := false })] ∧
    applyRecord [] [(1, { id := 1, available := 5, held := 0, total := 5, locked := false })]
        ⟨.withdrawal, 1, 9, 7⟩ =
      .error "Withdrawal failed. Available funds insufficient." := by
  constructor
  · exact (c7_withdrawal_semantics []
      [(1, { id := 1, available := 5, held := 0, total := 5, locked := false })]
      ⟨.withdrawal, 1, 9, 3⟩ rfl rfl).1 (by decide)
  · exact (c7_withdrawal_semantics []
      [(1, { id := 1, available := 5, held := 0, total := 5, locked := false })]
      ⟨.withdrawal, 1, 9, 7⟩ rfl rfl).2 (by decide)

theorem currentClient_insertClient_self (k : Nat) (v : Client)
    (cs : List (Nat × Client)) :
    currentClient (insertClient k v cs) k = v := by
  unfold currentClient
  rw [lookupClient_insertClient_self]

theorem currentClient_insertClient_of_eq {k cl : Nat} (h : k = cl)
    (v : Client) (cs : List (Nat × Client)) :
    currentClient (insertClient k v cs) cl = v := by
  subst h
  exact currentClient_insertClient_self k v cs

theorem applyRecord_dispute_eq (rs : List (Id × Record))
    (cs : List (Nat × Client)) (cl t : Nat) (d : Record)
    (hl : lookupRecord (Id.Tx t) rs = some d) :
    applyRecord rs cs ⟨.dispute, cl, t, 0⟩ =
      .ok (insertClient (currentClient cs cl).id
        { currentClient cs cl with
            available := (currentClient cs cl).available - d.amount,
            held := (currentClient cs cl).held + d.amount } cs) := by
  simp only [applyRecord, hl]

theorem applyRecord_resolve_eq (rs : List (Id × Record))
    (cs : List (Nat × Client)) (cl t : Nat) (d : Record)
    (hl : lookupRecord (Id.Tx t) rs = some d) :
    applyRecord rs cs ⟨.resolve, cl, t, 0⟩ =
      .ok (insertClient (currentClient cs cl).id
        { currentClient cs cl with
            available := (currentClient cs cl).available + d.amount,
            held := (currentClient cs cl).held - d.amount } cs) := by
  simp only [applyRecord, hl]

/-- C8: Resolve is the inverse of Dispute.  For any record map holding the
referenced transaction `t` for client `cl`, and any client map whose entry for
`cl` carries id `cl`, applying `dispute(cl, t)` and then `resolve(cl, t)`
succeeds and returns the account to exactly its pre-dispute state (available
and held restored), with `total` unchanged by the dispute as well. -/
theorem c8_resolve_inverts_dispute (rs : List (Id × Record))
    (cs : List (Nat × Client)) (cl t : Nat) (d : Record)
    (hl : lookupRecord (Id.Tx t) rs = some d) (hc : d.client = cl)
    (hid : (currentClient cs cl).id = cl) :
    ∃ cs1 cs2,
      applyRecord rs cs ⟨.dispute, cl, t, 0⟩ = .ok cs1 ∧
      applyRecord rs cs1 ⟨.resolve, cl, t, 0⟩ = .ok cs2 ∧
      currentClient cs2 cl = currentClient cs cl ∧
      (currentClient cs1 cl).total = (currentClient cs cl).total := by
  have h1 := applyRecord_dispute_eq rs cs cl t d hl
  have hcur1 : currentClient (insertClient (currentClient cs cl).id
      { currentClient cs cl with
          available := (currentClient cs cl).available - d.amount,
          held := (currentClient cs cl).held + d.amount } cs) cl =
      { currentClient cs cl with
          available := (currentClient cs cl).available - d.amount,
          held := (currentClient cs cl).held + d.amount } :=
    currentClient_insertClient_of_eq hid _ cs
  have h2 := applyRecord_resolve_eq rs (insertClient (currentClient cs cl).id
      { currentClient cs cl with
          available := (currentClient cs cl).available - d.amount,
          held := (currentClient cs cl).held + d.amount } cs) cl t d hl
  refine ⟨_, _, h1, h2, ?_, ?_⟩
  · have hid2 : (currentClient (insertClient (currentClient cs cl).id
        { currentClient cs cl with
            available := (currentClient cs cl).available - d.amount,
            held := (currentClient cs cl).held + d.amount } cs) cl).id = cl := by
      rw [hcur1]; exact hid
    rw [currentClient_insertClient_of_eq hid2, hcur1]
    generalize currentClient cs cl = c0
    obtain ⟨i, a, hh, tt, ll⟩ := c0
    show Client.mk i (a - d.amount + d.amount) (hh + d.amount - d.amount) tt ll =
      Client.mk i a hh tt ll
    congr 1 <;> first | rfl | omega
  · rw [hcur1]

/-- Witness for C8: dispute then resolve of a stored deposit of 5 for
client 1, starting from the empty client map. -/
theorem c8_resolve_inverts_dispute_witness :
    ∃ cs1 cs2,
      applyRecord (recordsFromList [⟨.deposit, 1, 2, 5⟩]) []
        ⟨.dispute, 1, 2, 0⟩ = .ok cs1 ∧
      applyRecord (recordsFromList [⟨.deposit, 1, 2, 5⟩]) cs1
        ⟨.resolve, 1, 2, 0⟩ = .ok cs2 ∧
      currentClient cs2 1 = currentClient [] 1 ∧
      (currentClient cs1 1).total = (currentClient [] 1).total :=
  c8_resolve_inverts_dispute _ [] 1 2 ⟨.deposit, 1, 2, 5⟩ rfl rfl rfl

/-- C9 counterexample: in `[deposit(client 1, tx 1, 5), deposit(client 2,
tx 1, 5)]` both deposits share tx id 1, so only the second is retained in the
record map; the run succeeds, yet client 1 — which appeared in an event — has
no output row, contradicting "exactly one row per client that appeared in any
event". -/
theorem c9_counterexample :
    moneybagsRun [⟨.deposit, 1, 1, 5⟩, ⟨.deposit, 2, 1, 5⟩] =
      .ok [{ id := 2, available := 5, held := 0, total := 5, locked := false }] ∧
    (∃ r ∈ ([⟨.deposit, 1, 1, 5⟩, ⟨.deposit, 2, 1, 5⟩] : List Record),
      r.client = 1) ∧
    ¬ ∃ c ∈ [({ id := 2, available := 5, held := 0, total := 5, locked := false } : Client)],
      c.id = 1 :=
  ⟨rfl, by decide, by decide⟩

/-- C9 (amended): for every successful run the output rows are strictly
sorted by ascending client id — hence at most one row per client — and a
client id has a row exactly when it appears among the retained records of the
(last-wins de-duplicated) record map; a client appearing only in
Deposit/Withdrawal records overwritten by a later duplicate tx id gets no
row. -/
theorem c9_rows_sorted_and_match_retained_records
    (input : List Record) (out : List Client)
    (h : moneybagsRun input = .ok out) :
    List.Pairwise (fun a b => a.id < b.id) out ∧
    ∀ x, (∃ c ∈ out, c.id = x) ↔
      ∃ q ∈ recordsFromList input, (q.2 : Record).client = x := by
  unfold moneybagsRun process_records at h
  cases hp : processLoop (recordsFromList input) [] (recordsFromList input) <;>
    rw [hp] at h
  case error e => cases h
  case ok cs =>
    injection h with h
    subst h
    obtain ⟨hs, hi, hdom⟩ := processLoop_ok_spec (recordsFromList input)
      (recordsFromList input) [] cs hp List.Pairwise.nil (by simp)
    constructor
    · rw [List.pairwise_map]
      exact List.Pairwise.imp_of_mem
        (fun ha hb hlt => by rw [hi _ ha, hi _ hb]; exact hlt) hs
    · intro x
      have hd := hdom x
      simp only [List.not_mem_nil, false_and, exists_false, false_or] at hd
      rw [← hd]
      constructor
      · rintro ⟨c, hc, hcx⟩
        obtain ⟨p, hp2, hpc⟩ := List.mem_map.mp hc
        refine ⟨p, hp2, ?_⟩
        rw [← hi p hp2, hpc]
        exact hcx
      · rintro ⟨p, hp2, hpx⟩
        exact ⟨p.2, List.mem_map_of_mem _ hp2, (hi p hp2).trans hpx⟩

/-- Witness for C9 (amended): a two-client input given out of client order
yields rows sorted by client id that cover exactly the retained records. -/
theorem c9_rows_sorted_witness :
    List.Pairwise (fun a b => (a : Client).id < b.id)
      [{ id := 1, available := 5, held := 0, total := 5, locked := false },
       { id := 2, available := 7, held := 0, total := 7, locked := false }] ∧
    ∀ x, (∃ c ∈ [({ id := 1, available := 5, held := 0, total := 5, locked := false } : Client),
        { id := 2, available := 7, held := 0, total := 7, locked := false }],
        c.id = x) ↔
      ∃ q ∈ recordsFromList [⟨.deposit, 2, 2, 7⟩, ⟨.deposit, 1, 1, 5⟩],
        (q.2 : Record).client = x :=
  c9_rows_sorted_and_match_retained_records
    [⟨.deposit, 2, 2, 7⟩, ⟨.deposit, 1, 1, 5⟩] _ rfl

end Moneybags
